import Mathlib

/-!
Verification of `dask_cuda/device_host_file.py`.

The file embeds the module shallowly:

* `DeviceSerialized`, `device_serialize`, `device_deserialize`,
  `device_to_host`, `host_to_device` and `sizeofDS` are translated directly
  from the Python source.  The external generic serializer
  (`distributed.protocol.serialize` / `deserialize`) is a black box there, so
  here it is a parameter: a pair `ser : α → σ × List φ`,
  `deser : σ → List φ → Option α` (an exception becomes `none`).
* The `zict` containers (`Buffer`, `Func`, `File`) wired up by
  `DeviceHostFile.__init__` are not part of the repository source; they are
  modelled from the specification's description of the CountedBuffer
  component (fast map, slow map, weight-based LRU spilling, aggregate
  size/iteration) and composed exactly as `__init__` composes them:
  the host buffer spills through `dumpB`/`loadB` into the disk map and the
  device buffer spills through `d2h`/`h2d` into the host buffer.
* `setitem`, `getitem`, `delitem`, `dhfLen`, `dhfIter` are translated from
  `DeviceHostFile.__setitem__` / `__getitem__` / `__delitem__` / `__len__` /
  `__iter__`.

Python dictionaries become association lists ordered oldest-first (the most
recently touched entry is last), `raise KeyError` becomes `none`, and frame
buffers are opaque type parameters.
-/

set_option maxHeartbeats 1000000

variable {α σ τ φ ω : Type}

/-- A device object flattened for host storage: a msgpack-encodable header
together with the ordered list of host buffers (`DeviceSerialized` in the
source). -/
structure DeviceSerialized (τ α : Type) where
  header : τ
  parts : List α

/-- `DeviceSerialized.__sizeof__`: the sum of `nbytes` over the parts; the
external `nbytes` is the parameter `nb`. -/
def sizeofDS (nb : α → Nat) (s : DeviceSerialized τ α) : Nat :=
  (s.parts.map nb).sum

/-- One per-part sub-header produced by `device_serialize`: the header
returned by the external serializer (`core`) plus the
`"frame-start-stop"` entry `[start, stop)` stored into it. -/
structure SubHeader (σ : Type) where
  core : σ
  start : Nat
  stop : Nat

/-- The top-level header built by `device_serialize`:
`{"sub-headers": headers, "main-header": obj.header}`. -/
structure SerialHeader (σ τ : Type) where
  subHeaders : List (SubHeader σ)
  mainHeader : τ

/-- The loop of `device_serialize`: serialize each part, record
`[len(all_frames), len(all_frames) + len(frames))` in its sub-header and
extend the accumulated frame list. -/
def serializeParts (ser : α → σ × List φ) :
    List α → List φ → List (SubHeader σ) × List φ
  | [], allFrames => ([], allFrames)
  | part :: rest, allFrames =>
    let hf := ser part
    let sh : SubHeader σ :=
      ⟨hf.1, allFrames.length, allFrames.length + hf.2.length⟩
    let r := serializeParts ser rest (allFrames ++ hf.2)
    (sh :: r.1, r.2)

/-- `device_serialize(obj)`: per-part sub-headers with offset ranges, the
main header kept verbatim, and the concatenated frame list. -/
def device_serialize (ser : α → σ × List φ) (obj : DeviceSerialized τ α) :
    SerialHeader σ τ × List φ :=
  let r := serializeParts ser obj.parts []
  (⟨r.1, obj.header⟩, r.2)

/-- Python's `frames[start:stop]` on a list indexed by naturals. -/
def pySlice (l : List φ) (start stop : Nat) : List φ :=
  (l.drop start).take (stop - start)

/-- The loop of `device_deserialize`: pop each sub-header's offset range,
slice the frame list and decode the part; a failing part decode aborts the
whole decode with no partial result. -/
def deserializeParts (deser : σ → List φ → Option α) (frames : List φ) :
    List (SubHeader σ) → Option (List α)
  | [] => some []
  | sh :: rest =>
    match deser sh.core (pySlice frames sh.start sh.stop) with
    | none => none
    | some part =>
      match deserializeParts deser frames rest with
      | none => none
      | some parts => some (part :: parts)

/-- `device_deserialize(header, frames)`: decode every part by its recorded
offset range and reassemble a `DeviceSerialized` with the main header. -/
def device_deserialize (deser : σ → List φ → Option α)
    (header : SerialHeader σ τ) (frames : List φ) :
    Option (DeviceSerialized τ α) :=
  (deserializeParts deser frames header.subHeaders).map
    (fun parts => ⟨header.mainHeader, parts⟩)

/-- The frames contributed by a list of parts, in order (what
`device_serialize` accumulates into `all_frames` starting from `[]`). -/
def partsFrames (ser : α → σ × List φ) (parts : List α) : List φ :=
  (parts.map (fun p => (ser p).2)).flatten

/-- `contiguousFrom n l m`: the offset ranges of `l` start at `n`, each
range's start is the previous range's stop, every stop bounds its start from
above, and the last stop is `m`. -/
def contiguousFrom : Nat → List (SubHeader σ) → Nat → Prop
  | n, [], m => n = m
  | n, sh :: rest, m => sh.start = n ∧ sh.start ≤ sh.stop ∧ contiguousFrom sh.stop rest m

/-- `device_to_host(obj)`: serialize with the external generic serializer and
force every frame to a host array (`numpy.asarray`, the parameter
`asarray`). -/
def device_to_host (ser : ω → τ × List φ) (asarray : φ → φ) (obj : ω) :
    DeviceSerialized τ φ :=
  ⟨(ser obj).1, (ser obj).2.map asarray⟩

/-- `host_to_device(s)`: hand header and parts back to the external generic
deserializer. -/
def host_to_device (deser : τ → List φ → ω) (s : DeviceSerialized τ φ) : ω :=
  deser s.header s.parts

/-- A concrete instance of the external serializer contract used by
witnesses: a part is its frame list, the header records the frame count. -/
def natSer (p : List φ) : Nat × List φ := (p.length, p)

/-- Modelled from the spec: the external generic deserializer's contract —
it inverts `natSer` and (being given the declared frame count in the header)
fails on a frame list whose length does not match the declaration. -/
def natDeser (n : Nat) (fs : List φ) : Option (List φ) :=
  if fs.length = n then some fs else none

/-- A concrete external deserializer for the `device_to_host` round trip:
the header is ignored and the frame list is the object. -/
def rawDeser (_h : Nat) (fs : List φ) : List φ := fs

/- ---------------------------------------------------------------------- -/
/- The tiered cache (`DeviceHostFile`).                                    -/
/- ---------------------------------------------------------------------- -/

variable {K V DS B : Type} [DecidableEq K]

/-- The external collaborators wired up by `DeviceHostFile.__init__`:
the residency predicate `is_device_object`, the bridge pair
`device_to_host`/`host_to_device` (`d2h`/`h2d`), the byte codec
`serialize_bytelist`/`deserialize_bytes` (`dumpB`/`loadB`) and the weight
functions used by the two buffers. -/
structure DHFParams (K V DS B : Type) where
  is_device_object : V → Bool
  d2h : V → DS
  h2d : DS → V
  dumpB : V ⊕ DS → B
  loadB : B → V ⊕ DS
  wtDev : V → Nat
  wtHost : V ⊕ DS → Nat

/-- The state of a `DeviceHostFile`: the device-key set, the three fast/slow
maps (`self.device`, `self.host`, `self.disk`) as association lists ordered
oldest-first, and the two capacity limits.  Host-tier values are either raw
host objects (`Sum.inl`, stored by a predicate-false put) or spilled device
objects (`Sum.inr`, stored by the device buffer's `device_to_host` spill). -/
structure DeviceHostFile (K V DS B : Type) where
  device_keys : List K
  device : List (K × V)
  host : List (K × (V ⊕ DS))
  disk : List (K × B)
  device_memory_limit : Option Nat
  memory_limit : Option Nat

/-- Look a key up in an association list. -/
def alistLookup : List (K × V) → K → Option V
  | [], _ => none
  | (k', v) :: rest, k => if k = k' then some v else alistLookup rest k

/-- Key membership in an association list. -/
def alistMem : List (K × V) → K → Bool
  | [], _ => false
  | (k', _) :: rest, k => if k = k' then true else alistMem rest k

/-- Remove every binding of a key from an association list. -/
def alistRemove : List (K × V) → K → List (K × V)
  | [], _ => []
  | (k', v) :: rest, k =>
    if k' = k then alistRemove rest k else (k', v) :: alistRemove rest k

/-- Overwrite a key's binding; the new binding becomes the most recent. -/
def alistSet (l : List (K × V)) (k : K) (v : V) : List (K × V) :=
  alistRemove l k ++ [(k, v)]

/-- The keys of an association list, in order. -/
def keysOf (l : List (K × V)) : List K :=
  l.map Prod.fst

/-- Membership in a plain key list. -/
def keyMem : List K → K → Bool
  | [], _ => false
  | k' :: rest, k => if k = k' then true else keyMem rest k

/-- `set.add`: add a key to the device-key set. -/
def insertKey (l : List K) (k : K) : List K :=
  if keyMem l k then l else l ++ [k]

/-- `set.discard`: remove a key from the device-key set. -/
def removeKey : List K → K → List K
  | [], _ => []
  | k' :: rest, k =>
    if k' = k then removeKey rest k else k' :: removeKey rest k

/-- Total weight of a fast map. -/
def totalW (wt : V → Nat) (l : List (K × V)) : Nat :=
  (l.map (fun kv => wt kv.2)).sum

/-- Whether a fast-map weight exceeds an (optional) capacity limit. -/
def overLimit (limit : Option Nat) (w : Nat) : Bool :=
  match limit with
  | none => false
  | some n => decide (n < w)

/-- Modelled from the spec: the CountedBuffer eviction loop of the host
buffer (a `zict.Buffer` whose slow side is the disk `Func`/`File`): while the
fast map's total weight exceeds the limit, the least-recently-touched entry
is encoded with `dumpB` and moved to the disk map. -/
def hostSpill (P : DHFParams K V DS B) :
    Option Nat → List (K × (V ⊕ DS)) → List (K × B) →
      List (K × (V ⊕ DS)) × List (K × B)
  | _, [], disk => ([], disk)
  | limit, (k, hv) :: rest, disk =>
    if overLimit limit (totalW P.wtHost ((k, hv) :: rest)) then
      hostSpill P limit rest (alistSet disk k (P.dumpB hv))
    else
      ((k, hv) :: rest, disk)

/-- Membership in the host buffer: its fast map or its slow (disk) map. -/
def hostMem (f : DeviceHostFile K V DS B) (k : K) : Bool :=
  alistMem f.host k || alistMem f.disk k

/-- Modelled from the spec: `host_buffer[key] = value` — a slow-side copy is
removed first, the value is inserted into the fast map as most recent, and
the eviction loop restores the capacity invariant. -/
def hostPut (P : DHFParams K V DS B) (f : DeviceHostFile K V DS B)
    (k : K) (hv : V ⊕ DS) : DeviceHostFile K V DS B :=
  let disk0 := if alistMem f.disk k then alistRemove f.disk k else f.disk
  let fast0 := alistSet f.host k hv
  let r := hostSpill P f.memory_limit fast0 disk0
  { f with host := r.1, disk := r.2 }

/-- Modelled from the spec: `host_buffer[key]` — a fast hit returns the value
and refreshes its recency; a slow hit decodes the disk record with `loadB`
and leaves placement unchanged; an absent key fails (`none`). -/
def hostGet (P : DHFParams K V DS B) (f : DeviceHostFile K V DS B) (k : K) :
    Option (V ⊕ DS) × DeviceHostFile K V DS B :=
  match alistLookup f.host k with
  | some hv => (some hv, { f with host := alistSet f.host k hv })
  | none =>
    match alistLookup f.disk k with
    | some b => (some (P.loadB b), f)
    | none => (none, f)

/-- Modelled from the spec: `del host_buffer[key]` — remove the key from
whichever of the two maps holds it; an absent key fails (`none`). -/
def hostDel (f : DeviceHostFile K V DS B) (k : K) :
    Option (DeviceHostFile K V DS B) :=
  if alistMem f.host k then some { f with host := alistRemove f.host k }
  else if alistMem f.disk k then some { f with disk := alistRemove f.disk k }
  else none

/-- Modelled from the spec: the CountedBuffer eviction loop of the device
buffer, whose slow side is `Func(device_to_host, host_to_device,
host_buffer)`: an evicted entry is encoded with `d2h` and inserted into the
host buffer (which may spill onward to disk). -/
def devSpill (P : DHFParams K V DS B) :
    Option Nat → List (K × V) → DeviceHostFile K V DS B →
      List (K × V) × DeviceHostFile K V DS B
  | _, [], f => ([], f)
  | limit, (k, v) :: rest, f =>
    if overLimit limit (totalW P.wtDev ((k, v) :: rest)) then
      devSpill P limit rest (hostPut P f k (Sum.inr (P.d2h v)))
    else
      ((k, v) :: rest, f)

/-- Membership in the device buffer's tier chain: its fast map or its slow
side, which is the whole host buffer. -/
def devMem (f : DeviceHostFile K V DS B) (k : K) : Bool :=
  alistMem f.device k || hostMem f k

/-- Modelled from the spec: `device_buffer[key] = value` — a slow-side copy
(anywhere in the host chain) is deleted first, the value enters the device
fast map as most recent, and the eviction loop spills via `d2h`. -/
def devPut (P : DHFParams K V DS B) (f : DeviceHostFile K V DS B)
    (k : K) (v : V) : DeviceHostFile K V DS B :=
  let f0 := if hostMem f k then (hostDel f k).getD f else f
  let fast0 := alistSet f0.device k v
  let r := devSpill P f0.device_memory_limit fast0 f0
  { r.2 with device := r.1 }

/-- Modelled from the spec: `device_buffer[key]` — a fast hit returns the
device object and refreshes recency; a slow hit reads the host chain and
decodes with `h2d` (a raw host value in that position has no
`header`/`parts`, so the decode fails); an absent key fails. -/
def devGet (P : DHFParams K V DS B) (f : DeviceHostFile K V DS B) (k : K) :
    Option V × DeviceHostFile K V DS B :=
  match alistLookup f.device k with
  | some v => (some v, { f with device := alistSet f.device k v })
  | none =>
    if hostMem f k then
      let r := hostGet P f k
      match r.1 with
      | some (Sum.inr ds) => (some (P.h2d ds), r.2)
      | some (Sum.inl _) => (none, r.2)
      | none => (none, r.2)
    else (none, f)

/-- Modelled from the spec: `del device_buffer[key]` — remove from the device
fast map if it holds the key, otherwise delete through the slow side, i.e.
from the host buffer. -/
def devDel (f : DeviceHostFile K V DS B) (k : K) :
    Option (DeviceHostFile K V DS B) :=
  if alistMem f.device k then some { f with device := alistRemove f.device k }
  else hostDel f k

/-- `DeviceHostFile.__setitem__`: a predicate-true value adds the key to the
device-key set and goes to the device buffer; any other value goes to the
host buffer. -/
def setitem (P : DHFParams K V DS B) (f : DeviceHostFile K V DS B)
    (k : K) (v : V) : DeviceHostFile K V DS B :=
  if P.is_device_object v then
    devPut P { f with device_keys := insertKey f.device_keys k } k v
  else
    hostPut P f k (Sum.inl v)

/-- `DeviceHostFile.__getitem__`: a key in the device-key set is routed to
the device buffer (its result re-tagged as a raw value); otherwise a key
present in the host buffer is read there; otherwise `KeyError` (`none`). -/
def getitem (P : DHFParams K V DS B) (f : DeviceHostFile K V DS B) (k : K) :
    Option (V ⊕ DS) × DeviceHostFile K V DS B :=
  if keyMem f.device_keys k then
    let r := devGet P f k
    (r.1.map Sum.inl, r.2)
  else if hostMem f k then hostGet P f k
  else (none, f)

/-- `DeviceHostFile.__delitem__`: discard the key from the device-key set,
then delete it from the device buffer's tier chain. -/
def delitem (f : DeviceHostFile K V DS B) (k : K) :
    Option (DeviceHostFile K V DS B) :=
  devDel { f with device_keys := removeKey f.device_keys k } k

/-- `DeviceHostFile.__len__`: the device buffer's length, which aggregates
its fast map and its slow side — the host buffer, which itself aggregates
host fast map and disk. -/
def dhfLen (f : DeviceHostFile K V DS B) : Nat :=
  f.device.length + (f.host.length + f.disk.length)

/-- `DeviceHostFile.__iter__`: the device buffer's keys — its fast map's keys
chained with its slow side's, i.e. the host fast map's and the disk's. -/
def dhfIter (f : DeviceHostFile K V DS B) : List K :=
  keysOf f.device ++ (keysOf f.host ++ keysOf f.disk)

/-- A freshly constructed `DeviceHostFile`: all maps empty. -/
def dhfInit (dl ml : Option Nat) : DeviceHostFile K V DS B :=
  ⟨[], [], [], [], dl, ml⟩

/-- Concrete collaborator functions over `Nat` used by witnesses and
counterexamples: even values count as device objects, the bridge is the
identity, and the byte codec tags the two summands into even/odd numbers. -/
def P0 : DHFParams Nat Nat Nat Nat :=
  ⟨fun v => v % 2 == 0, id, id,
   (fun hv => match hv with | Sum.inl v => 2 * v | Sum.inr d => 2 * d + 1),
   (fun b => if b % 2 == 0 then Sum.inl (b / 2) else Sum.inr (b / 2)),
   fun _ => 1, fun _ => 1⟩

/-- The empty concrete cache with no capacity limits. -/
def emptyDHF : DeviceHostFile Nat Nat Nat Nat :=
  dhfInit none none

/- ---------------------------------------------------------------------- -/
/- Helper lemmas: serialization bridge.                                    -/
/- ---------------------------------------------------------------------- -/

theorem serializeParts_snd (ser : α → σ × List φ) :
    ∀ (parts : List α) (acc : List φ),
      (serializeParts ser parts acc).2 = acc ++ partsFrames ser parts := by
  intro parts
  induction parts with
  | nil => intro acc; simp [serializeParts, partsFrames]
  | cons p rest ih =>
    intro acc
    simp only [serializeParts, partsFrames, List.map_cons, List.flatten_cons]
    rw [ih]
    simp [partsFrames, List.append_assoc]

theorem deser_serializeParts (ser : α → σ × List φ)
    (deser : σ → List φ → Option α)
    (hinv : ∀ p, deser (ser p).1 (ser p).2 = some p) :
    ∀ (parts : List α) (acc : List φ),
      deserializeParts deser (acc ++ partsFrames ser parts)
        (serializeParts ser parts acc).1 = some parts := by
  intro parts
  induction parts with
  | nil => intro acc; simp [serializeParts, deserializeParts]
  | cons p rest ih =>
    intro acc
    have hF : acc ++ partsFrames ser (p :: rest)
        = acc ++ ((ser p).2 ++ partsFrames ser rest) := by
      simp [partsFrames]
    rw [hF]
    simp only [serializeParts, deserializeParts]
    have hslice : pySlice (acc ++ ((ser p).2 ++ partsFrames ser rest))
        acc.length (acc.length + (ser p).2.length) = (ser p).2 := by
      unfold pySlice
      rw [List.drop_left, Nat.add_sub_cancel_left, List.take_left]
    rw [hslice, hinv p]
    have ih2 := ih (acc ++ (ser p).2)
    rw [List.append_assoc] at ih2
    rw [ih2]

theorem serializeParts_contiguous (ser : α → σ × List φ) :
    ∀ (parts : List α) (acc : List φ),
      contiguousFrom acc.length (serializeParts ser parts acc).1
        (serializeParts ser parts acc).2.length := by
  intro parts
  induction parts with
  | nil => intro acc; simp [serializeParts, contiguousFrom]
  | cons p rest ih =>
    intro acc
    simp only [serializeParts, contiguousFrom]
    refine ⟨by simp, by simp, ?_⟩
    have h := ih (acc ++ (ser p).2)
    simpa [List.length_append] using h

theorem pySlice_length (l : List φ) (a b : Nat) :
    (pySlice l a b).length = min (b - a) (l.length - a) := by
  simp [pySlice]

theorem deserializeParts_none_of_mem (deser : σ → List φ → Option α)
    (frames : List φ) (sh : SubHeader σ) :
    ∀ shs : List (SubHeader σ), sh ∈ shs →
      deser sh.core (pySlice frames sh.start sh.stop) = none →
      deserializeParts deser frames shs = none := by
  intro shs
  induction shs with
  | nil => intro h; cases h
  | cons a rest ih =>
    intro hmem hnone
    rcases List.mem_cons.mp hmem with h | h
    · subst h
      simp [deserializeParts, hnone]
    · have hrec := ih h hnone
      simp only [deserializeParts, hrec]
      cases deser a.core (pySlice frames a.start a.stop) <;> rfl

/- ---------------------------------------------------------------------- -/
/- Claims about the serialization bridge.                                  -/
/- ---------------------------------------------------------------------- -/

/-- Claim C1: for every `DeviceSerialized` value (the empty parts list
included), decoding the header and frame list produced by `device_serialize`
with a per-part deserializer that inverts the per-part serializer yields a
`DeviceSerialized` with the same parts in the same order and the main header
preserved verbatim. -/
theorem roundtrip_device_serialize (ser : α → σ × List φ)
    (deser : σ → List φ → Option α)
    (hinv : ∀ p, deser (ser p).1 (ser p).2 = some p)
    (s : DeviceSerialized τ α) :
    device_deserialize deser (device_serialize ser s).1
      (device_serialize ser s).2 = some s := by
  have h1 := serializeParts_snd ser s.parts []
  have h2 := deser_serializeParts ser deser hinv s.parts []
  simp only [List.nil_append] at h1 h2
  simp only [device_serialize, device_deserialize]
  rw [h1, h2]
  rfl

/-- Witness for C1: a concrete serializer and a three-part value, one part
empty. -/
theorem roundtrip_device_serialize_witness :
    device_deserialize natDeser
      (device_serialize natSer
        (⟨42, [[1, 2, 3], [], [7]]⟩ : DeviceSerialized Nat (List Nat))).1
      (device_serialize natSer
        (⟨42, [[1, 2, 3], [], [7]]⟩ : DeviceSerialized Nat (List Nat))).2
      = some ⟨42, [[1, 2, 3], [], [7]]⟩ :=
  roundtrip_device_serialize natSer natDeser
    (fun p => by simp [natSer, natDeser]) ⟨42, [[1, 2, 3], [], [7]]⟩

/-- Counterexample to claim C6 as stated: a header declaring a single
one-frame part `[0, 1)` given two frames — declared total (1) and actual
frame count (2) disagree, yet decoding succeeds and silently ignores the
surplus frame instead of failing. -/
theorem device_deserialize_surplus_cex :
    device_deserialize natDeser
      (⟨[⟨1, 0, 1⟩], 9⟩ : SerialHeader Nat Nat) ([4, 5] : List Nat)
      = some ⟨9, [[4]]⟩ := by
  rfl

/-- Claim C6 amended: the decoder performs no validation of the declared
offsets against the supplied frame count; surplus frames beyond the declared
ranges are silently ignored, and decoding fails (with no partial result)
exactly through the per-part deserializer — here one that rejects a frame
list shorter than its sub-header declares — when some declared range
`[start, stop)` reaches past the end of the supplied frames. -/
theorem device_deserialize_truncated_fails (hdr : SerialHeader Nat τ)
    (frames : List φ) (sh : SubHeader Nat)
    (hmem : sh ∈ hdr.subHeaders)
    (hcore : sh.core = sh.stop - sh.start)
    (hlt : sh.start < sh.stop)
    (hsz : frames.length < sh.stop) :
    device_deserialize natDeser hdr frames = none := by
  have hlen : (pySlice frames sh.start sh.stop).length < sh.core := by
    rw [pySlice_length, hcore]
    rcases Nat.le_total (sh.stop - sh.start) (frames.length - sh.start)
      with hle | hle
    · rw [Nat.min_eq_left hle]
      omega
    · rw [Nat.min_eq_right hle]
      omega
  have hnone : natDeser sh.core (pySlice frames sh.start sh.stop) = none := by
    unfold natDeser
    exact if_neg (Nat.ne_of_lt hlen)
  have hparts :=
    deserializeParts_none_of_mem natDeser frames sh hdr.subHeaders hmem hnone
  simp [device_deserialize, hparts]

/-- Witness for the amended C6: one declared two-frame part, only one frame
supplied — decoding fails with no partial result. -/
theorem device_deserialize_truncated_fails_witness :
    device_deserialize natDeser
      (⟨[⟨2, 0, 2⟩], 5⟩ : SerialHeader Nat Nat) ([3] : List Nat) = none :=
  device_deserialize_truncated_fails _ _ ⟨2, 0, 2⟩
    (List.mem_singleton.mpr rfl) rfl (by decide) (by decide)

/-- Claim C7: the offset ranges recorded by `device_serialize` are monotonic,
non-overlapping and contiguous — the first range starts at 0, each range's
start is the previous range's stop, each stop bounds its start from above,
and the last stop is the total number of emitted frames. -/
theorem device_serialize_offsets_contiguous (ser : α → σ × List φ)
    (s : DeviceSerialized τ α) :
    contiguousFrom 0 (device_serialize ser s).1.subHeaders
      (device_serialize ser s).2.length := by
  have h := serializeParts_contiguous ser s.parts []
  simpa [device_serialize] using h

/-- Claim C8: with the external generic deserializer inverting the external
serializer and `numpy.asarray` acting as the identity on frame content,
`host_to_device (device_to_host O)` reproduces `O` for every object `O`. -/
theorem host_device_roundtrip (ser : ω → τ × List φ) (deser : τ → List φ → ω)
    (asarray : φ → φ) (hid : ∀ fr, asarray fr = fr)
    (hinv : ∀ o, deser (ser o).1 (ser o).2 = o) (o : ω) :
    host_to_device deser (device_to_host ser asarray o) = o := by
  unfold host_to_device device_to_host
  rw [show asarray = id from funext hid, List.map_id]
  exact hinv o

/-- Witness for C8 at a concrete serializer pair and object. -/
theorem host_device_roundtrip_witness :
    host_to_device rawDeser (device_to_host natSer id ([1, 2, 3] : List Nat))
      = [1, 2, 3] :=
  host_device_roundtrip natSer rawDeser id (fun _ => rfl) (fun _ => rfl)
    [1, 2, 3]

/-- Claim C10: `DeviceSerialized.__sizeof__` is the sum of the byte sizes of
the parts; the header contributes nothing (two values differing only in the
header report the same size), and an empty parts list reports size 0. -/
theorem sizeofDS_sum_parts (nb : φ → Nat) (h h' : τ) (parts : List φ) :
    sizeofDS nb ⟨h, parts⟩ = (parts.map nb).sum ∧
    sizeofDS nb ⟨h, parts⟩ = sizeofDS nb ⟨h', parts⟩ ∧
    sizeofDS nb (⟨h, []⟩ : DeviceSerialized τ φ) = 0 :=
  ⟨rfl, rfl, rfl⟩

/- ---------------------------------------------------------------------- -/
/- Helper lemmas: association lists and key lists.                         -/
/- ---------------------------------------------------------------------- -/

theorem alistMem_remove_self (l : List (K × V)) (k : K) :
    alistMem (alistRemove l k) k = false := by
  induction l with
  | nil => rfl
  | cons kv rest ih =>
    obtain ⟨k', v⟩ := kv
    by_cases h : k' = k
    · simpa [alistRemove, h] using ih
    · have h2 : ¬k = k' := fun hh => h hh.symm
      simp [alistRemove, alistMem, h, h2, ih]

theorem alistMem_remove_other {l : List (K × V)} {k k' : K} (h : k ≠ k') :
    alistMem (alistRemove l k') k = alistMem l k := by
  induction l with
  | nil => rfl
  | cons kv rest ih =>
    obtain ⟨k1, v⟩ := kv
    by_cases h1 : k1 = k'
    · subst h1
      simp [alistRemove, alistMem, h, ih]
    · by_cases h2 : k = k1 <;> simp [alistRemove, alistMem, h1, h2, ih]

theorem alistMem_append (l₁ l₂ : List (K × V)) (k : K) :
    alistMem (l₁ ++ l₂) k = (alistMem l₁ k || alistMem l₂ k) := by
  induction l₁ with
  | nil => simp [alistMem]
  | cons kv rest ih =>
    obtain ⟨k1, v⟩ := kv
    by_cases h : k = k1 <;> simp [alistMem, h, ih]

theorem alistMem_set_self (l : List (K × V)) (k : K) (v : V) :
    alistMem (alistSet l k v) k = true := by
  simp [alistSet, alistMem_append, alistMem]

theorem alistMem_set_other {l : List (K × V)} {k k' : K} (v : V) (h : k ≠ k') :
    alistMem (alistSet l k' v) k = alistMem l k := by
  simp [alistSet, alistMem_append, alistMem_remove_other h, alistMem, h]

theorem alistLookup_remove_self (l : List (K × V)) (k : K) :
    alistLookup (alistRemove l k) k = none := by
  induction l with
  | nil => rfl
  | cons kv rest ih =>
    obtain ⟨k', v⟩ := kv
    by_cases h : k' = k
    · simpa [alistRemove, h] using ih
    · have h2 : ¬k = k' := fun hh => h hh.symm
      simp [alistRemove, alistLookup, h, h2, ih]

theorem alistLookup_append_none {l₁ : List (K × V)} {k : K}
    (l₂ : List (K × V)) (h : alistLookup l₁ k = none) :
    alistLookup (l₁ ++ l₂) k = alistLookup l₂ k := by
  induction l₁ with
  | nil => rfl
  | cons kv rest ih =>
    obtain ⟨k1, v⟩ := kv
    by_cases h1 : k = k1
    · simp [alistLookup, h1] at h
    · simp [alistLookup, h1] at h ⊢
      exact ih h

theorem alistLookup_set_self (l : List (K × V)) (k : K) (v : V) :
    alistLookup (alistSet l k v) k = some v := by
  unfold alistSet
  rw [alistLookup_append_none _ (alistLookup_remove_self l k)]
  simp [alistLookup]

theorem alistMem_keysOf {l : List (K × V)} {k : K} :
    alistMem l k = true ↔ k ∈ keysOf l := by
  induction l with
  | nil => simp [alistMem, keysOf]
  | cons kv rest ih =>
    obtain ⟨k1, v⟩ := kv
    by_cases h : k = k1 <;> simp [alistMem, keysOf, h, ih]

theorem alistMem_len_pos {l : List (K × V)} {k : K}
    (h : alistMem l k = true) : 0 < l.length := by
  cases l with
  | nil => simp [alistMem] at h
  | cons kv rest => simp

theorem keyMem_append (l₁ l₂ : List K) (k : K) :
    keyMem (l₁ ++ l₂) k = (keyMem l₁ k || keyMem l₂ k) := by
  induction l₁ with
  | nil => simp [keyMem]
  | cons k1 rest ih =>
    by_cases h : k = k1 <;> simp [keyMem, h, ih]

theorem keyMem_insertKey_self (l : List K) (k : K) :
    keyMem (insertKey l k) k = true := by
  unfold insertKey
  by_cases h : keyMem l k = true
  · simp [h]
  · simp only [Bool.not_eq_true] at h
    simp [h, keyMem_append, keyMem]

theorem keyMem_removeKey_self (l : List K) (k : K) :
    keyMem (removeKey l k) k = false := by
  induction l with
  | nil => rfl
  | cons k1 rest ih =>
    by_cases h : k1 = k
    · simpa [removeKey, h] using ih
    · have h2 : ¬k = k1 := fun hh => h hh.symm
      simp [removeKey, keyMem, h, h2, ih]

/- ---------------------------------------------------------------------- -/
/- Helper lemmas: the two CountedBuffers.                                  -/
/- ---------------------------------------------------------------------- -/

theorem hostSpill_none (P : DHFParams K V DS B) (fast : List (K × (V ⊕ DS)))
    (disk : List (K × B)) : hostSpill P none fast disk = (fast, disk) := by
  cases fast with
  | nil => rfl
  | cons kv rest =>
    obtain ⟨k, hv⟩ := kv
    simp [hostSpill, overLimit]

theorem devSpill_none (P : DHFParams K V DS B) (fast : List (K × V))
    (f : DeviceHostFile K V DS B) : devSpill P none fast f = (fast, f) := by
  cases fast with
  | nil => rfl
  | cons kv rest =>
    obtain ⟨k, v⟩ := kv
    simp [devSpill, overLimit]

theorem hostSpill_mem (P : DHFParams K V DS B) (k : K) :
    ∀ (limit : Option Nat) (fast : List (K × (V ⊕ DS))) (disk : List (K × B)),
      (alistMem fast k || alistMem disk k) = true →
      (alistMem (hostSpill P limit fast disk).1 k ||
        alistMem (hostSpill P limit fast disk).2 k) = true := by
  intro limit fast
  induction fast with
  | nil =>
    intro disk h
    simpa [hostSpill, alistMem] using h
  | cons kv rest ih =>
    intro disk h
    obtain ⟨k1, hv⟩ := kv
    simp only [hostSpill]
    split
    · apply ih
      by_cases hk : k = k1
      · subst hk
        simp [alistMem_set_self]
      · simp [alistMem, hk] at h
        simpa [alistMem_set_other _ hk, alistMem, hk] using h
    · exact h

theorem hostPut_mem_self (P : DHFParams K V DS B) (f : DeviceHostFile K V DS B)
    (k : K) (hv : V ⊕ DS) : hostMem (hostPut P f k hv) k = true := by
  simp only [hostPut, hostMem]
  apply hostSpill_mem
  simp [alistMem_set_self]

theorem hostPut_mem_mono (P : DHFParams K V DS B) (f : DeviceHostFile K V DS B)
    (k k' : K) (hv : V ⊕ DS) (h : hostMem f k' = true) :
    hostMem (hostPut P f k hv) k' = true := by
  by_cases hk : k' = k
  · subst hk
    exact hostPut_mem_self P f k' hv
  · simp only [hostPut, hostMem]
    apply hostSpill_mem
    unfold hostMem at h
    rw [alistMem_set_other _ hk]
    have hdisk :
        alistMem (if alistMem f.disk k then alistRemove f.disk k else f.disk) k'
          = alistMem f.disk k' := by
      split
      · exact alistMem_remove_other hk
      · rfl
    rw [hdisk]
    exact h

theorem hostPut_device (P : DHFParams K V DS B) (f : DeviceHostFile K V DS B)
    (k : K) (hv : V ⊕ DS) : (hostPut P f k hv).device = f.device := rfl

theorem hostPut_keys (P : DHFParams K V DS B) (f : DeviceHostFile K V DS B)
    (k : K) (hv : V ⊕ DS) : (hostPut P f k hv).device_keys = f.device_keys := rfl

theorem hostPut_dml (P : DHFParams K V DS B) (f : DeviceHostFile K V DS B)
    (k : K) (hv : V ⊕ DS) :
    (hostPut P f k hv).device_memory_limit = f.device_memory_limit := rfl

theorem hostPut_ml (P : DHFParams K V DS B) (f : DeviceHostFile K V DS B)
    (k : K) (hv : V ⊕ DS) : (hostPut P f k hv).memory_limit = f.memory_limit :=
  rfl

theorem hostDel_pres {f f' : DeviceHostFile K V DS B} {k : K}
    (h : hostDel f k = some f') :
    f'.device = f.device ∧ f'.device_keys = f.device_keys ∧
      f'.device_memory_limit = f.device_memory_limit ∧
      f'.memory_limit = f.memory_limit := by
  unfold hostDel at h
  split at h
  · cases h
    exact ⟨rfl, rfl, rfl, rfl⟩
  · split at h
    · cases h
      exact ⟨rfl, rfl, rfl, rfl⟩
    · cases h

theorem hostDelGuard_pres (f : DeviceHostFile K V DS B) (k : K) :
    ((if hostMem f k then (hostDel f k).getD f else f).device = f.device) ∧
      ((if hostMem f k then (hostDel f k).getD f else f).device_keys
        = f.device_keys) ∧
      ((if hostMem f k then (hostDel f k).getD f else f).device_memory_limit
        = f.device_memory_limit) ∧
      ((if hostMem f k then (hostDel f k).getD f else f).memory_limit
        = f.memory_limit) := by
  split
  · cases hd : hostDel f k with
    | none => simp [hd]
    | some f' =>
      simp only [hd, Option.getD_some]
      exact hostDel_pres hd
  · exact ⟨rfl, rfl, rfl, rfl⟩

theorem devSpill_keys (P : DHFParams K V DS B) :
    ∀ (limit : Option Nat) (fast : List (K × V)) (f : DeviceHostFile K V DS B),
      (devSpill P limit fast f).2.device_keys = f.device_keys := by
  intro limit fast
  induction fast with
  | nil => intro f; rfl
  | cons kv rest ih =>
    intro f
    obtain ⟨k1, v1⟩ := kv
    simp only [devSpill]
    split
    · rw [ih]
      exact hostPut_keys P f k1 (Sum.inr (P.d2h v1))
    · rfl

theorem devSpill_mem (P : DHFParams K V DS B) (k : K) :
    ∀ (limit : Option Nat) (fast : List (K × V)) (f : DeviceHostFile K V DS B),
      (alistMem fast k || hostMem f k) = true →
      (alistMem (devSpill P limit fast f).1 k ||
        hostMem (devSpill P limit fast f).2 k) = true := by
  intro limit fast
  induction fast with
  | nil =>
    intro f h
    simpa [devSpill, alistMem] using h
  | cons kv rest ih =>
    intro f h
    obtain ⟨k1, v1⟩ := kv
    simp only [devSpill]
    split
    · apply ih
      by_cases hk : k = k1
      · subst hk
        simp [hostPut_mem_self]
      · simp [alistMem, hk] at h
        rcases h with h | h
        · simp [h]
        · simp [hostPut_mem_mono P f k1 k _ h]
    · exact h

theorem devPut_keys (P : DHFParams K V DS B) (f : DeviceHostFile K V DS B)
    (k : K) (v : V) : (devPut P f k v).device_keys = f.device_keys := by
  simp only [devPut]
  rw [devSpill_keys]
  exact (hostDelGuard_pres f k).2.1

theorem devPut_mem_self (P : DHFParams K V DS B) (f : DeviceHostFile K V DS B)
    (k : K) (v : V) : devMem (devPut P f k v) k = true := by
  simp only [devPut, devMem, hostMem]
  have h := devSpill_mem P k
    ((if hostMem f k then (hostDel f k).getD f else f).device_memory_limit)
    (alistSet ((if hostMem f k then (hostDel f k).getD f else f).device) k v)
    (if hostMem f k then (hostDel f k).getD f else f)
    (by simp [alistMem_set_self])
  simpa [hostMem] using h

theorem devPut_none_lookup (P : DHFParams K V DS B)
    (f : DeviceHostFile K V DS B) (k : K) (v : V)
    (hdl : f.device_memory_limit = none) :
    alistLookup (devPut P f k v).device k = some v ∧
      (devPut P f k v).device_keys = f.device_keys ∧
      (devPut P f k v).memory_limit = f.memory_limit := by
  have hg := hostDelGuard_pres f k
  simp only [devPut]
  rw [hg.2.2.1, hdl, devSpill_none]
  exact ⟨alistLookup_set_self _ k v, hg.2.1, hg.2.2.2⟩

theorem hostPut_none_fields (P : DHFParams K V DS B)
    (f : DeviceHostFile K V DS B) (k : K) (hv : V ⊕ DS)
    (hml : f.memory_limit = none) :
    (hostPut P f k hv).host = alistSet f.host k hv ∧
      (hostPut P f k hv).device = f.device ∧
      (hostPut P f k hv).device_keys = f.device_keys := by
  simp only [hostPut]
  rw [hml, hostSpill_none]
  simp

/- ---------------------------------------------------------------------- -/
/- Claims about the tiered cache.                                          -/
/- ---------------------------------------------------------------------- -/

/-- Counterexample to claim C2 as stated: key 1 is put with a
predicate-true value (0) and then re-put with a predicate-false value (5);
afterwards the device-key set still contains the key — so it still routes to
the device buffer — and `get` returns the stale device value 0 rather than
resolving through the host buffer. -/
theorem reput_device_routing_cex :
    keyMem (setitem P0 (setitem P0 emptyDHF 1 0) 1 5).device_keys 1 = true ∧
      (getitem P0 (setitem P0 (setitem P0 emptyDHF 1 0) 1 5) 1).1
        = some (Sum.inl 0) := by
  decide

/-- Claim C2 amended: a re-put under the opposite predicate outcome does NOT
overwrite the placement tracking in the device-to-host direction — the key
keeps its device-key-set membership, `get` still routes to the device buffer
and returns the stale device-tier value, while the new value sits shadowed
in the host buffer (the previous copies are not purged). Stated for caches
with no capacity limit, so no eviction interferes. -/
theorem reput_keeps_device_routing (P : DHFParams K V DS B)
    (f : DeviceHostFile K V DS B) (k : K) (v1 v2 : V)
    (h1 : P.is_device_object v1 = true) (h2 : P.is_device_object v2 = false)
    (hdl : f.device_memory_limit = none) (hml : f.memory_limit = none) :
    keyMem (setitem P (setitem P f k v1) k v2).device_keys k = true ∧
      (getitem P (setitem P (setitem P f k v1) k v2) k).1
        = some (Sum.inl v1) ∧
      alistMem (setitem P (setitem P f k v1) k v2).host k = true := by
  have e1 : setitem P f k v1
      = devPut P { f with device_keys := insertKey f.device_keys k } k v1 := by
    simp [setitem, h1]
  have hd := devPut_none_lookup P
    { f with device_keys := insertKey f.device_keys k } k v1 hdl
  have hml1 : (setitem P f k v1).memory_limit = none := by
    rw [e1, hd.2.2]
    exact hml
  have e2 : setitem P (setitem P f k v1) k v2
      = hostPut P (setitem P f k v1) k (Sum.inl v2) := by
    simp [setitem, h2]
  have hh := hostPut_none_fields P (setitem P f k v1) k (Sum.inl v2) hml1
  have hkeys : (setitem P (setitem P f k v1) k v2).device_keys
      = insertKey f.device_keys k := by
    rw [e2, hostPut_keys, e1, hd.2.1]
  have hkm : keyMem (setitem P (setitem P f k v1) k v2).device_keys k
      = true := by
    rw [hkeys]
    exact keyMem_insertKey_self f.device_keys k
  refine ⟨hkm, ?_, ?_⟩
  · have hlook : alistLookup (setitem P (setitem P f k v1) k v2).device k
        = some v1 := by
      rw [e2, hh.2.1, e1]
      exact hd.1
    simp [getitem, hkm, devGet, hlook]
  · rw [e2, hh.1]
    exact alistMem_set_self _ k (Sum.inl v2)

/-- Witness for the amended C2 at the concrete scenario of the
counterexample. -/
theorem reput_keeps_device_routing_witness :
    keyMem (setitem P0 (setitem P0 emptyDHF 1 0) 1 5).device_keys 1 = true ∧
      (getitem P0 (setitem P0 (setitem P0 emptyDHF 1 0) 1 5) 1).1
        = some (Sum.inl 0) ∧
      alistMem (setitem P0 (setitem P0 emptyDHF 1 0) 1 5).host 1 = true :=
  reput_keeps_device_routing P0 emptyDHF 1 0 5 (by decide) (by decide) rfl rfl

/-- Claim C3: deleting a key that is present somewhere in the cache
succeeds, removes the key's device-key-set membership, and removes the key
from the buffer that held it — from the device fast map when it held the
key, otherwise from the host buffer (host fast map or disk). The side
hypothesis is the spec's own fast-XOR-slow invariant for the host buffer. -/
theorem delitem_removes (f : DeviceHostFile K V DS B) (k : K)
    (hpre : (alistMem f.device k || hostMem f k) = true)
    (hxor : (alistMem f.host k && alistMem f.disk k) = false) :
    ∃ f', delitem f k = some f' ∧
      keyMem f'.device_keys k = false ∧
      (alistMem f.device k = true → alistMem f'.device k = false) ∧
      (alistMem f.device k = false → hostMem f' k = false) := by
  by_cases hdev : alistMem f.device k = true
  · refine ⟨⟨removeKey f.device_keys k, alistRemove f.device k, f.host,
        f.disk, f.device_memory_limit, f.memory_limit⟩,
      by simp [delitem, devDel, hdev], ?_, ?_, ?_⟩
    · exact keyMem_removeKey_self f.device_keys k
    · intro _
      exact alistMem_remove_self f.device k
    · intro h
      rw [hdev] at h
      cases h
  · simp only [Bool.not_eq_true] at hdev
    rw [hdev] at hpre
    simp only [Bool.false_or] at hpre
    unfold hostMem at hpre
    by_cases hhost : alistMem f.host k = true
    · refine ⟨⟨removeKey f.device_keys k, f.device, alistRemove f.host k,
          f.disk, f.device_memory_limit, f.memory_limit⟩,
        by simp [delitem, devDel, hostDel, hdev, hhost], ?_, ?_, ?_⟩
      · exact keyMem_removeKey_self f.device_keys k
      · intro h
        rw [hdev] at h
        cases h
      · intro _
        have hdisk : alistMem f.disk k = false := by
          rcases Bool.eq_false_or_eq_true (alistMem f.disk k) with h | h
          · rw [hhost, h] at hxor
            cases hxor
          · exact h
        simp [hostMem, alistMem_remove_self, hdisk]
    · simp only [Bool.not_eq_true] at hhost
      rw [hhost] at hpre
      simp only [Bool.false_or] at hpre
      refine ⟨⟨removeKey f.device_keys k, f.device, f.host,
          alistRemove f.disk k, f.device_memory_limit, f.memory_limit⟩,
        by simp [delitem, devDel, hostDel, hdev, hhost, hpre], ?_, ?_, ?_⟩
      · exact keyMem_removeKey_self f.device_keys k
      · intro h
        rw [hdev] at h
        cases h
      · intro _
        simp [hostMem, alistMem_remove_self, hhost]

/-- Witness for C3: a key put with a predicate-false value resides only in
the host fast map; deleting it succeeds and removes it everywhere. -/
theorem delitem_removes_witness :
    ∃ f', delitem (setitem P0 emptyDHF 1 5) 1 = some f' ∧
      keyMem f'.device_keys 1 = false ∧
      (alistMem (setitem P0 emptyDHF 1 5).device 1 = true →
        alistMem f'.device 1 = false) ∧
      (alistMem (setitem P0 emptyDHF 1 5).device 1 = false →
        hostMem f' 1 = false) :=
  delitem_removes (setitem P0 emptyDHF 1 5) 1 (by decide) (by decide)

/-- Claim C4: `get` routing — a key in neither the device-key set nor the
host buffer fails with `KeyError` (no value, state untouched); a key in the
device-key set is routed to the device buffer; any other key present in the
host buffer is routed to the host buffer. -/
theorem getitem_routing (P : DHFParams K V DS B)
    (f : DeviceHostFile K V DS B) (k : K) :
    (keyMem f.device_keys k = false → hostMem f k = false →
      (getitem P f k).1 = none ∧ (getitem P f k).2 = f) ∧
    (keyMem f.device_keys k = true →
      getitem P f k = ((devGet P f k).1.map Sum.inl, (devGet P f k).2)) ∧
    (keyMem f.device_keys k = false → hostMem f k = true →
      getitem P f k = hostGet P f k) := by
  refine ⟨fun h1 h2 => ?_, fun h1 => ?_, fun h1 h2 => ?_⟩
  · simp [getitem, h1, h2]
  · simp [getitem, h1]
  · simp [getitem, h1, h2]

/-- Witness for C4: the three routing cases at concrete caches — an empty
cache (key absent), a cache holding key 1 as a device object, and a cache
holding key 1 as a host object. -/
theorem getitem_routing_witness :
    (getitem P0 emptyDHF 1).1 = none ∧
      getitem P0 (setitem P0 emptyDHF 1 2) 1
        = ((devGet P0 (setitem P0 emptyDHF 1 2) 1).1.map Sum.inl,
            (devGet P0 (setitem P0 emptyDHF 1 2) 1).2) ∧
      getitem P0 (setitem P0 emptyDHF 1 5) 1
        = hostGet P0 (setitem P0 emptyDHF 1 5) 1 :=
  ⟨((getitem_routing P0 emptyDHF 1).1 (by decide) (by decide)).1,
    (getitem_routing P0 (setitem P0 emptyDHF 1 2) 1).2.1 (by decide),
    (getitem_routing P0 (setitem P0 emptyDHF 1 5) 1).2.2 (by decide)
      (by decide)⟩

/-- Claim C5: `put` routing — a predicate-true value adds the key to the
device-key set and stores through the device buffer's tier chain; a
predicate-false value stores through the host buffer and leaves the device
buffer (its fast map and the device-key set) untouched. -/
theorem setitem_routing (P : DHFParams K V DS B)
    (f : DeviceHostFile K V DS B) (k : K) (v : V) :
    (P.is_device_object v = true →
      keyMem (setitem P f k v).device_keys k = true ∧
        devMem (setitem P f k v) k = true) ∧
    (P.is_device_object v = false →
      (setitem P f k v).device_keys = f.device_keys ∧
        (setitem P f k v).device = f.device ∧
        hostMem (setitem P f k v) k = true) := by
  constructor
  · intro h
    have e : setitem P f k v
        = devPut P { f with device_keys := insertKey f.device_keys k } k v := by
      simp [setitem, h]
    rw [e]
    constructor
    · rw [devPut_keys]
      exact keyMem_insertKey_self f.device_keys k
    · exact devPut_mem_self P _ k v
  · intro h
    have e : setitem P f k v = hostPut P f k (Sum.inl v) := by
      simp [setitem, h]
    rw [e]
    exact ⟨hostPut_keys P f k _, hostPut_device P f k _,
      hostPut_mem_self P f k _⟩

/-- Witness for C5: a device put (even value) and a host put (odd value) on
the empty concrete cache. -/
theorem setitem_routing_witness :
    (keyMem (setitem P0 emptyDHF 1 2).device_keys 1 = true ∧
      devMem (setitem P0 emptyDHF 1 2) 1 = true) ∧
    ((setitem P0 emptyDHF 1 5).device_keys = emptyDHF.device_keys ∧
      (setitem P0 emptyDHF 1 5).device = emptyDHF.device ∧
      hostMem (setitem P0 emptyDHF 1 5) 1 = true) :=
  ⟨(setitem_routing P0 emptyDHF 1 2).1 (by decide),
    (setitem_routing P0 emptyDHF 1 5).2 (by decide)⟩

/-- Counterexample to claim C9 as stated: a key put with a predicate-false
value lives only in the host buffer (the device fast map and the device-key
set stay empty), yet the cache's size reports 1 and iteration yields that
key — it IS counted and yielded. -/
theorem len_iter_host_key_cex :
    (setitem P0 emptyDHF 7 5).device = [] ∧
      (setitem P0 emptyDHF 7 5).device_keys = [] ∧
      dhfLen (setitem P0 emptyDHF 7 5) = 1 ∧
      dhfIter (setitem P0 emptyDHF 7 5) = [7] := by
  decide

/-- Claim C9 amended: size and iteration delegate to the device buffer, but
the device buffer's size and iteration aggregate its fast map AND its slow
tier — the host buffer and the disk — so every key present in the host
buffer is counted and yielded as well; only the asymmetry of the spec's
reading fails, not the delegation. -/
theorem iter_len_cover_host (f : DeviceHostFile K V DS B) (k : K)
    (h : hostMem f k = true) :
    k ∈ dhfIter f ∧ 0 < dhfLen f := by
  unfold hostMem at h
  rcases Bool.or_eq_true_iff.mp h with h | h
  · constructor
    · unfold dhfIter
      have hk := alistMem_keysOf.mp h
      exact List.mem_append.mpr (Or.inr (List.mem_append.mpr (Or.inl hk)))
    · have := alistMem_len_pos h
      unfold dhfLen
      omega
  · constructor
    · unfold dhfIter
      have hk := alistMem_keysOf.mp h
      exact List.mem_append.mpr (Or.inr (List.mem_append.mpr (Or.inr hk)))
    · have := alistMem_len_pos h
      unfold dhfLen
      omega

/-- Witness for the amended C9: the host-only key 7 is yielded by iteration
and counted by size. -/
theorem iter_len_cover_host_witness :
    7 ∈ dhfIter (setitem P0 emptyDHF 7 5) ∧
      0 < dhfLen (setitem P0 emptyDHF 7 5) :=
  iter_len_cover_host (setitem P0 emptyDHF 7 5) 7 (by decide)
